import Mathlib

set_option maxRecDepth 8000

/-!
Shallow embedding of `condor/utils/cxiwriter.py`.

`CXIWriter` accumulates nested records into an HDF5-like tree of groups and
datasets; `read_map` decodes the CCP4 volumetric map format.  Host details the
program never observes through the claims are abstracted: the open h5py file is
the tree of groups and datasets itself, a freshly allocated or padded stack row
is `none`, Python floats are carried as rationals (they are only stored and
compared, never computed with), and a raised Python exception is a `PyErr`
value threaded next to the mutated tree (h5py mutations performed before the
raise persist, exactly as in the source).
-/

namespace Cxi

/-- numpy element dtypes produced by the writer, plus `objectT` for values
whose coercion to a rectangular typed array yields the object dtype
(`h5py.h5t.py_create` rejects it). -/
inductive Dtype
  | int64
  | float64
  | bytesS
  | vlenStr
  | objectT
  deriving DecidableEq, Repr

/-- Python scalar leaf values, the ones `numpy.isscalar` accepts. -/
inductive Scalar
  | int (n : Int)
  | float (q : Rat)
  | str (s : String)
  deriving DecidableEq, Repr

/-- `numpy.asarray(value)` of a non-scalar leaf: shape, element dtype and the
row-major element list. -/
structure NDArray where
  shape : List Nat
  dtype : Dtype
  flat : List Scalar
  deriving DecidableEq, Repr

/-- `h5py.h5t.py_create(dtype, logical=1)` (cxiwriter.py line 88) succeeds for
every dtype the writer builds except the numpy object dtype, where it raises
`TypeError` (caught at line 89). -/
def py_create_ok : Dtype → Bool
  | .objectT => false
  | _ => true

/-- A leaf value of a record: a Python scalar or an array-like. -/
inductive Leaf
  | scalar (s : Scalar)
  | array (a : NDArray)
  deriving DecidableEq, Repr

/-- Lines 78-81: `numpy.dtype(type(data))`, with strings going through
`data.encode('utf8')` first, which yields the kind-"S" bytes dtype. -/
def scalarRawDtype : Scalar → Dtype
  | .int _ => .int64
  | .float _ => .float64
  | .str _ => .bytesS

/-- Lines 82-83: a kind-"S" dtype is replaced by the variable-length string
dtype before the dataset is created. -/
def scalarFinalDtype (s : Scalar) : Dtype :=
  if scalarRawDtype s = Dtype.bytesS then Dtype.vlenStr else scalarRawDtype s

/-- Lines 104-107: `data_shape` is `[]` for a scalar and `data.shape` for an
array-like. -/
def leafDataShape : Leaf → List Nat
  | .scalar _ => []
  | .array a => a.shape

/-- The element dtype the dataset for this leaf is created with. -/
def leafDtype : Leaf → Dtype
  | .scalar s => scalarFinalDtype s
  | .array a => a.dtype

/-- `numpy.isscalar(data)` (line 75). -/
def leafIsScalar : Leaf → Bool
  | .scalar _ => true
  | .array _ => false

/-- Whether dataset creation for this leaf succeeds (line 88). -/
def leafCreateOk : Leaf → Bool
  | .scalar _ => true
  | .array a => py_create_ok a.dtype

/-- Everything about a leaf that the writer's control flow depends on: the
records of a stream are assumed schema-equal, and this is the per-leaf schema.
-/
structure LeafSkel where
  isScalar : Bool
  dataShape : List Nat
  finalDtype : Dtype
  createOk : Bool
  deriving DecidableEq, Repr

/-- The schema of one leaf. -/
def Leaf.skel (v : Leaf) : LeafSkel :=
  { isScalar := leafIsScalar v
    dataShape := leafDataShape v
    finalDtype := leafDtype v
    createOk := leafCreateOk v }

/-- One stack row of a dataset: the scalar or the flattened array block stored
at that leading-axis position. -/
inductive Cell
  | scalar (s : Scalar)
  | array (flat : List Scalar)
  deriving DecidableEq, Repr

/-- An h5py dataset: `cap` is `shape[0]` (the physical leading-axis length),
`tshape` the fixed trailing per-record shape, `slots` the stack rows (`none`
for allocated-but-unwritten rows), and `axes` the value of the `axes`
attribute — `attrs.modify("axes", [tag.encode('utf8')])` (line 102) stores a
one-element list of strings. -/
structure Dataset where
  cap : Nat
  tshape : List Nat
  dtype : Dtype
  slots : List (Option Cell)
  axes : List String
  deriving DecidableEq, Repr

mutual
/-- A node of the HDF5 tree: a dataset or a group. -/
inductive H5Node
  | ds (d : Dataset)
  | group (g : HEntries)

/-- The named children of a group, in insertion order (h5py iterates groups in
creation order for this access pattern). -/
inductive HEntries
  | nil
  | cons (k : String) (n : H5Node) (rest : HEntries)
end

mutual
/-- A value of a record: a leaf or a nested mapping. -/
inductive DVal
  | leaf (v : Leaf)
  | dict (es : DEntries)

/-- The key/value pairs of a record, in Python dict iteration (= insertion)
order. -/
inductive DEntries
  | nil
  | cons (k : String) (v : DVal) (rest : DEntries)
end

/-- `k in group` / `group[k]`: first child with the given name. -/
def getChildH : HEntries → String → Option H5Node
  | .nil, _ => none
  | .cons k' n rest, k => if k' = k then some n else getChildH rest k

/-- Replace the child named `k`, or append it at the end when absent (h5py
object creation appends in insertion order). -/
def setChildH : HEntries → String → H5Node → HEntries
  | .nil, k, n => .cons k n .nil
  | .cons k' n' rest, k, n =>
    if k' = k then .cons k n rest else .cons k' n' (setChildH rest k n)

/-- Concatenation of group-children lists. -/
def happend : HEntries → HEntries → HEntries
  | .nil, b => b
  | .cons k n rest, b => .cons k n (happend rest b)

/-- Names of the children of a group. -/
def keysH : HEntries → List String
  | .nil => []
  | .cons k _ rest => k :: keysH rest

/-- Keys of a record, top level only. -/
def keysD : DEntries → List String
  | .nil => []
  | .cons k _ rest => k :: keysD rest

mutual
/-- All datasets below a node. -/
def datasetsN : H5Node → List Dataset
  | .ds d => [d]
  | .group g => datasetsE g

/-- All datasets below a list of group entries, recursively. -/
def datasetsE : HEntries → List Dataset
  | .nil => []
  | .cons _ n rest => datasetsN n ++ datasetsE rest
end

/-- Python exceptions that the modelled operations can raise. -/
inductive PyErr
  | groupExists (name : String)
  | notAGroup (name : String)
  | notADataset (name : String)
  | shapeMismatch (name : String)
  | dtypeMismatch (name : String)
  | valueError (msg : String)
  | indexError
  | nameError (name : String)
  deriving DecidableEq, Repr

/-- Raw `h5py.File.create_group`: raises when the name already exists.  The
writer guards every call with `if k not in self._f[group_prefix]`
(line 67). -/
def create_group_raw (g : HEntries) (pfx k : String) : Except PyErr HEntries :=
  match getChildH g k with
  | some _ => .error (.groupExists (pfx ++ k))
  | none => .ok (setChildH g k (.group .nil))

/-- Lines 74-102: dataset creation for a first-seen leaf.  `none` means the
leaf was skipped: `py_create` raised `TypeError`, the warning was logged and
the loop continued (lines 89-91).  The created dataset has leading capacity
`chunksize`, the leaf's trailing shape and dtype, all rows unwritten, and the
`axes` attribute chosen from the dimensionality (lines 84, 96-99). -/
def mkLeafDataset (chunksize : Nat) : Leaf → Option Dataset
  | .scalar s =>
    some { cap := chunksize
           tshape := []
           dtype := scalarFinalDtype s
           slots := List.replicate chunksize none
           axes := ["experiment_identifier:value"] }
  | .array a =>
    if py_create_ok a.dtype then
      let ndim := a.shape.length
      let axes0 := "experiment_identifier"
      let axes1 :=
        if ndim = 1 then axes0 ++ ":x"
        else if ndim = 2 then axes0 ++ ":y:x"
        else if ndim = 3 then axes0 ++ ":z:y:x"
        else axes0
      some { cap := chunksize
             tshape := a.shape
             dtype := a.dtype
             slots := List.replicate chunksize none
             axes := [axes1] }
    else none

/-- Lines 103-110: when `shape[0] <= i`, resize the stack to
`chunksize * (i / chunksize + 1)` rows (Python-2 floor division; at every
reachable resize point `i` is an exact multiple of the chunk size, so floor
and true division agree).  The resize passes `[new_lead] + data_shape`; a
trailing shape that differs from the dataset's is modelled as a failure (the
`maxshape` fixed at creation pins the trailing axes). -/
def growIfNeeded (chunksize i : Nat) (name : String) (v : Leaf) (d : Dataset) :
    Except PyErr Dataset :=
  if d.cap ≤ i then
    if leafDataShape v = d.tshape then
      let newLead := chunksize * (i / chunksize + 1)
      .ok { d with
            cap := newLead
            slots := d.slots.take newLead ++
                     List.replicate (newLead - d.slots.length) none }
    else .error (.shapeMismatch name)
  else .ok d

/-- In-place update of the row at index `i`. -/
def listSet : List (Option Cell) → Nat → Cell → List (Option Cell)
  | [], _, _ => []
  | _ :: rest, 0, c => some c :: rest
  | x :: rest, n + 1, c => x :: listSet rest n c

/-- Lines 111-115: store the record's value at stack position `i`.  A scalar
goes through `dset[i] = data`, an array through `dset[i,:] = data[:]`; the
0-d-array case and any shape or dtype disagreement raise in h5py and are
modelled as errors. -/
def writeSlot (i : Nat) (name : String) (v : Leaf) (d : Dataset) :
    Except PyErr Dataset :=
  if i < d.cap then
    match v with
    | .scalar s =>
      if d.tshape = [] then
        if d.dtype = scalarFinalDtype s then
          .ok { d with slots := listSet d.slots i (.scalar s) }
        else .error (.dtypeMismatch name)
      else .error (.shapeMismatch name)
    | .array a =>
      if a.shape = [] then .error .indexError
      else if d.tshape = a.shape then
        if d.dtype = a.dtype then
          .ok { d with slots := listSet d.slots i (.array a.flat) }
        else .error (.dtypeMismatch name)
      else .error (.shapeMismatch name)
  else .error .indexError

/-- Line 90: the logged warning for a leaf whose dataset cannot be created. -/
def skipWarning (name : String) : String :=
  "Could not save dataset " ++ name ++ ". Conversion to numpy array failed"

/-- The grow-then-store sequence shared by the fresh and the existing dataset
paths (lines 103-115); on a raise, the dataset state reached so far stays in
the file. -/
def leafSteps (cs i : Nat) (name k : String) (v : Leaf) (d : Dataset)
    (g : HEntries) : HEntries × Option PyErr × List String :=
  match growIfNeeded cs i name v d with
  | .error e => (setChildH g k (.ds d), some e, [])
  | .ok d1 =>
    match writeSlot i name v d1 with
    | .error e => (setChildH g k (.ds d1), some e, [])
    | .ok d2 => (setChildH g k (.ds d2), none, [])

mutual
/-- `CXIWriter._write_without_iterate` (lines 62-115): walk the record's keys
in order; a raise aborts the walk and propagates, keeping the mutations made
so far; warnings accumulate in order. -/
def write_without_iterate (cs i : Nat) (pfx : String) :
    DEntries → HEntries → HEntries × Option PyErr × List String
  | .nil, g => (g, none, [])
  | .cons k v rest, g =>
    match write_without_iterate_val cs i pfx k v g with
    | (g1, some e, ws) => (g1, some e, ws)
    | (g1, none, ws) =>
      match write_without_iterate cs i pfx rest g1 with
      | (g2, e, ws2) => (g2, e, ws ++ ws2)

/-- One key of the walk: a nested dict ensures its group exists (created only
when absent, line 67) and recurses; a leaf is created on first sight (possibly
skipped with a warning), grown when full, and written at position `i`. -/
def write_without_iterate_val (cs i : Nat) (pfx k : String) :
    DVal → HEntries → HEntries × Option PyErr × List String
  | .dict es, g =>
    match getChildH g k with
    | some (.group sub) =>
      match write_without_iterate cs i (pfx ++ k ++ "/") es sub with
      | (sub2, e, ws) => (setChildH g k (.group sub2), e, ws)
    | some (.ds _) => (g, some (.notAGroup (pfx ++ k)), [])
    | none =>
      match create_group_raw g pfx k with
      | .error e => (g, some e, [])
      | .ok g1 =>
        match write_without_iterate cs i (pfx ++ k ++ "/") es .nil with
        | (sub2, e, ws) => (setChildH g1 k (.group sub2), e, ws)
  | .leaf v, g =>
    match getChildH g k with
    | some (.group _) => (g, some (.notADataset (pfx ++ k)), [])
    | some (.ds d) => leafSteps cs i (pfx ++ k) k v d g
    | none =>
      match mkLeafDataset cs v with
      | none => (g, none, [skipWarning (pfx ++ k)])
      | some d => leafSteps cs i (pfx ++ k) k v d g
end

/-- The writer's state: the open file tree, the record index `self._i` and the
chunk size. -/
structure CXIWriter where
  root : HEntries
  i : Nat
  chunksize : Nat

/-- `CXIWriter.__init__` on a fresh path: empty file, index 0. -/
def CXIWriter.new (chunksize : Nat) : CXIWriter :=
  { root := .nil, i := 0, chunksize := chunksize }

/-- `CXIWriter.write` (lines 57-60): walk the record, flush (a no-op here),
and increment `self._i` — but only when no exception escaped the walk. -/
def CXIWriter.write (w : CXIWriter) (D : DEntries) :
    CXIWriter × Option PyErr × List String :=
  match write_without_iterate w.chunksize w.i "/" D w.root with
  | (g, some e, ws) => ({ w with root := g }, some e, ws)
  | (g, none, ws) => ({ w with root := g, i := w.i + 1 }, none, ws)

/-- Repeated `write` calls; stops at the first raise. -/
def writeMany (w : CXIWriter) : List DEntries → CXIWriter × Option PyErr
  | [] => (w, none)
  | D :: rest =>
    match w.write D with
    | (w1, none, _) => writeMany w1 rest
    | (w1, some e, _) => (w1, some e)

/-- `resize` of `_shrink_stacks`: leading axis set to `i`, trailing shape
kept. -/
def shrinkSlots (i : Nat) (slots : List (Option Cell)) : List (Option Cell) :=
  slots.take i ++ List.replicate (i - slots.length) none

mutual
/-- `CXIWriter._shrink_stacks` on one node. -/
def shrink_stacks_node (i : Nat) : H5Node → H5Node
  | .ds d => .ds { d with cap := i, slots := shrinkSlots i d.slots }
  | .group g => .group (shrink_stacks i g)

/-- `CXIWriter._shrink_stacks` (lines 117-128): recursively resize every
dataset's leading axis to the number of records written. -/
def shrink_stacks (i : Nat) : HEntries → HEntries
  | .nil => .nil
  | .cons k n rest => .cons k (shrink_stacks_node i n) (shrink_stacks i rest)
end

/-- `CXIWriter.close` (lines 130-133): shrink all stacks, then release the
handle (not modelled). -/
def CXIWriter.close (w : CXIWriter) : CXIWriter :=
  { w with root := shrink_stacks w.i w.root }

mutual
/-- Records the writer handles without raising: every leaf has a creatable
dtype and a non-empty trailing shape when it is an array. -/
def writableV : DVal → Bool
  | .leaf (.scalar _) => true
  | .leaf (.array a) => py_create_ok a.dtype && !a.shape.isEmpty
  | .dict es => writableE es

/-- `writableV` over all entries of a record. -/
def writableE : DEntries → Bool
  | .nil => true
  | .cons _ v rest => writableV v && writableE rest
end

mutual
/-- No duplicate keys at any nesting depth (true of every Python dict). -/
def nodupV : DVal → Bool
  | .leaf _ => true
  | .dict es => nodupE es

/-- `nodupV` over the entries of a record. -/
def nodupE : DEntries → Bool
  | .nil => true
  | .cons k v rest => !(decide (k ∈ keysD rest)) && nodupV v && nodupE rest
end

mutual
/-- Two record values have the same schema: same split into leaves and dicts,
same keys in the same order, and schema-equal leaves. -/
def sameSkelV : DVal → DVal → Bool
  | .leaf v1, .leaf v2 => decide (v1.skel = v2.skel)
  | .dict e1, .dict e2 => sameSkelE e1 e2
  | _, _ => false

/-- `sameSkelV` over record entries, keys included. -/
def sameSkelE : DEntries → DEntries → Bool
  | .nil, .nil => true
  | .cons k1 v1 r1, .cons k2 v2 r2 =>
    decide (k1 = k2) && sameSkelV v1 v2 && sameSkelE r1 r2
  | _, _ => false
end

mutual
/-- The tree is exactly the materialization of the record's schema, every
dataset with leading capacity `c` (and as many allocated rows). -/
def fitsVal (c : Nat) : DVal → H5Node → Prop
  | .leaf v, .ds d =>
    d.cap = c ∧ d.slots.length = c ∧ d.tshape = leafDataShape v ∧
      d.dtype = leafDtype v
  | .dict es, .group g => fitsEnt c es g
  | _, _ => False

/-- `fitsVal` over aligned entry lists. -/
def fitsEnt (c : Nat) : DEntries → HEntries → Prop
  | .nil, .nil => True
  | .cons k v r, .cons k2 n r2 => k2 = k ∧ fitsVal c v n ∧ fitsEnt c r r2
  | _, _ => False
end

/-- All keys of the record are absent from the group. -/
def freshIn (g : HEntries) (D : DEntries) : Prop :=
  ∀ k ∈ keysD D, getChildH g k = none

/-! ## `read_map` (lines 136-170)

The file is a list of bytes.  `numpy.frombuffer(buf, dtype="int32")` requires
the buffer length to be a multiple of 4 and decodes little-endian signed
32-bit words.  The source re-reads the same header buffer for `NCNRNS`, `MODE`
and `NSYMBT`, then hits `if dtype_mode not in [0,2]` — but no name
`dtype_mode` is ever bound, so Python raises `NameError` there on every call
that reaches line 160 (and `return data, dx` at line 170 would raise on the
unbound `dx` as well). -/

/-- One little-endian signed 32-bit word from four bytes. -/
def int32OfBytes (b0 b1 b2 b3 : Nat) : Int :=
  let u : Nat := b0 % 256 + 256 * (b1 % 256) + 65536 * (b2 % 256) +
    16777216 * (b3 % 256)
  if u < 2147483648 then (u : Int) else (u : Int) - 4294967296

/-- All complete little-endian int32 words of a byte list. -/
def leWords : List Nat → List Int
  | b0 :: b1 :: b2 :: b3 :: rest => int32OfBytes b0 b1 b2 b3 :: leWords rest
  | _ => []

/-- Line 159's mode lookup table, verbatim. -/
def dtypeTable : List String :=
  ["i8", "int32", "float32", "cint32", "complex64", "i8"]

/-- Python list indexing: negative indices count from the end; out of range is
an `IndexError` (`none`). -/
def pyListGet (l : List String) (i : Int) : Option String :=
  if i < 0 then
    if i + l.length < 0 then none else l.get? (i + l.length).toNat
  else l.get? i.toNat

/-- What a successful `read_map` would return; the source never builds one
because of the unbound names. -/
structure MapData where
  shape : List Int
  payload : List Nat
  deriving DecidableEq, Repr

/-- `read_map` (lines 136-170).  Reads up to 1024 bytes of header, decodes the
extents and the mode word, looks the mode up in the dtype table, and then
evaluates `if dtype_mode not in [0,2]` — `dtype_mode` is unbound, so every
call that gets this far raises `NameError`.  The symmetry skip, the payload
`frombuffer`/`reshape` (lines 163-169) and the `return data, dx` are
unreachable. -/
def read_map (file : List Nat) : Except PyErr MapData :=
  let header_buf := file.take 1024
  if header_buf.length % 4 ≠ 0 then
    .error (.valueError "buffer size must be a multiple of element size")
  else
    let words := leWords header_buf
    let _ncnrns := words.take 3
    match words.get? 3 with
    | none => .error .indexError
    | some mode =>
      match pyListGet dtypeTable mode with
      | none => .error .indexError
      | some _dtype => .error (.nameError "dtype_mode")

/-! ## Concrete inputs used by the claims -/

/-- Four little-endian bytes of a 32-bit value. -/
def le32 (n : Nat) : List Nat :=
  [n % 256, n / 256 % 256, n / 65536 % 256, n / 16777216 % 256]

/-- C3's input: 1024-byte header with extents (2,3,4), mode 2, NSYMBT 0, then
24 little-endian 32-bit floats (96 payload bytes). -/
def c3file : List Nat :=
  le32 2 ++ le32 3 ++ le32 4 ++ le32 2 ++ List.replicate 1008 0 ++
    List.replicate 96 0

/-- C4's input: same header, but a 97-byte payload — not a multiple of the
4-byte element size times the extent product 24. -/
def c4file : List Nat :=
  le32 2 ++ le32 3 ++ le32 4 ++ le32 2 ++ List.replicate 1008 0 ++
    List.replicate 97 1

/-- C8's input: a well-formed map file whose mode word is 1 (outside {0,2,5}).
-/
def c8file : List Nat :=
  le32 2 ++ le32 3 ++ le32 4 ++ le32 1 ++ List.replicate 1008 0 ++
    List.replicate 96 0

/-- C9's input: a 20-byte file, far short of the 1024-byte header. -/
def c9short : List Nat :=
  le32 2 ++ le32 3 ++ le32 4 ++ le32 2 ++ le32 0

/-- First record of C2's round trip. -/
def c2rec1 : DEntries :=
  .cons "a" (.leaf (.scalar (.int 1)))
    (.cons "b"
      (.leaf (.array { shape := [2], dtype := .float64,
                       flat := [.float 1, .float 2] })) .nil)

/-- Second record of C2's round trip. -/
def c2rec2 : DEntries :=
  .cons "a" (.leaf (.scalar (.int 2)))
    (.cons "b"
      (.leaf (.array { shape := [2], dtype := .float64,
                       flat := [.float 3, .float 4] })) .nil)

/-- The container C2 expects after closing: leaf `a` = [1, 2], leaf `b` =
[[1.0, 2.0], [3.0, 4.0]], both of leading length 2. -/
def c2expected : HEntries :=
  .cons "a"
    (.ds { cap := 2, tshape := [], dtype := .int64,
           slots := [some (.scalar (.int 1)), some (.scalar (.int 2))],
           axes := ["experiment_identifier:value"] })
    (.cons "b"
      (.ds { cap := 2, tshape := [2], dtype := .float64,
             slots := [some (.array [.float 1, .float 2]),
                       some (.array [.float 3, .float 4])],
             axes := ["experiment_identifier:x"] }) .nil)

/-- The tag C5 states for each leaf dimensionality. -/
def claimedAxes : Leaf → String
  | .scalar _ => "experiment_identifier:value"
  | .array a =>
    if a.shape.length = 1 then "experiment_identifier:x"
    else if a.shape.length = 2 then "experiment_identifier:y:x"
    else if a.shape.length = 3 then "experiment_identifier:z:y:x"
    else "experiment_identifier"

/-- C5's witness leaf: a 2-D array of shape (4, 5). -/
def c5leafWit : Leaf :=
  .array { shape := [4, 5], dtype := .float64, flat := [] }

/-- The dataset `mkLeafDataset 2 c5leafWit` creates. -/
def c5dsWit : Dataset :=
  { cap := 2, tshape := [4, 5], dtype := .float64, slots := [none, none],
    axes := ["experiment_identifier:y:x"] }

/-- C6's witness: an object-dtype array — `py_create` rejects its dtype. -/
def c6bad : NDArray := { shape := [2], dtype := .objectT, flat := [] }

/-- C6's witness: the rest of the record, one ordinary scalar leaf. -/
def c6rest : DEntries := .cons "ok1" (.leaf (.scalar (.int 5))) .nil

/-- C10's witness writer: index 5, and an existing group named "x". -/
def c10writer : CXIWriter :=
  { root := .cons "x" (.group .nil) .nil, i := 5, chunksize := 2 }

/-- C10's witness record: a leaf under the name the group occupies, so the
write raises. -/
def c10rec : DEntries := .cons "x" (.leaf (.scalar (.int 1))) .nil

/-- C1's witness record: one integer leaf. -/
def c1rec : DEntries := .cons "a" (.leaf (.scalar (.int 7))) .nil

/-- Whether a raised error is h5py's "name already exists" from
`create_group`. -/
def errIsGroupExists : Option PyErr → Bool
  | some (.groupExists _) => true
  | _ => false

/-- The container after writing `c6rest` alone at record index 0 with chunk
size 2. -/
def c6after : HEntries :=
  .cons "ok1"
    (.ds { cap := 2, tshape := [], dtype := .int64,
           slots := [some (.scalar (.int 5)), none],
           axes := ["experiment_identifier:value"] }) .nil

/-! ## Theorems -/

/-- C2: writing the records `{"a": 1, "b": [1.0, 2.0]}` and
`{"a": 2, "b": [3.0, 4.0]}` with chunk size 2 and closing raises nothing and
yields a container whose leaf `a` is the sequence [1, 2] and whose leaf `b` is
[[1.0, 2.0], [3.0, 4.0]], both with leading-axis length exactly 2. -/
theorem C2_round_trip :
    (writeMany (CXIWriter.new 2) [c2rec1, c2rec2]).2 = none ∧
      (CXIWriter.close (writeMany (CXIWriter.new 2) [c2rec1, c2rec2]).1).root
        = c2expected :=
  ⟨rfl, rfl⟩

/-- C3 (code bug): on the well-formed map file of the claim — 1024-byte header
with extents (2,3,4), mode 2, NSYMBT 0, followed by 24 little-endian 32-bit
floats — `read_map` does not return the volume: it raises `NameError` at
line 160, where the unbound name `dtype_mode` is evaluated. -/
theorem C3_read_map_raises_on_valid_file :
    read_map c3file = .error (.nameError "dtype_mode") :=
  rfl

/-- C4 (code bug): on a map file whose payload byte count (97) is not a
multiple of the element size times the extent product, `read_map` does fail —
but with the same `NameError` raised at the line-160 mode check, before any
payload validation (lines 168-169) is reached; no distinct TruncatedPayload
condition exists. -/
theorem C4_read_map_raises_before_payload_check :
    read_map c4file = .error (.nameError "dtype_mode") :=
  rfl

/-- C8 (code bug): a map file with mode word 1 (outside {0,2,5}) is not
accepted with a warning: `read_map` raises `NameError` at the very mode check
(`if dtype_mode not in [0,2]`, line 160), so the call never proceeds to decode
the payload. -/
theorem C8_read_map_raises_at_mode_check :
    read_map c8file = .error (.nameError "dtype_mode") :=
  rfl

/-- C9 counterexample: a 20-byte map file does not fail with a distinct
MalformedHeader condition — it raises exactly the same `NameError` that the
well-formed 1120-byte file `c3file` raises, so nothing distinguishes the
short-header failure. -/
theorem C9_no_malformed_header_condition :
    read_map c9short = .error (.nameError "dtype_mode") ∧
      read_map c9short = read_map c3file :=
  ⟨rfl, rfl⟩

/-- C9 amended: `read_map` does fail on every file shorter than 1024 bytes,
but only with one of the generic errors every input can produce — the
`NameError` from the unbound `dtype_mode`, an `IndexError` from indexing word
3 of a too-short header, or numpy's `ValueError` when the byte count is not a
multiple of 4.  The code never validates the header length. -/
theorem C9_short_header_generic_error (f : List Nat) (_h : f.length < 1024) :
    read_map f = .error (.nameError "dtype_mode") ∨
      read_map f = .error .indexError ∨
      read_map f = .error
        (.valueError "buffer size must be a multiple of element size") := by
  by_cases h4 : (f.take 1024).length % 4 ≠ 0
  · right; right; simp only [read_map, if_pos h4]
  · rcases h3 : (leWords (f.take 1024)).get? 3 with _ | mode
    · right; left; simp only [read_map, if_neg h4, h3]
    · rcases hdt : pyListGet dtypeTable mode with _ | s
      · right; left; simp only [read_map, if_neg h4, h3, hdt]
      · left; simp only [read_map, if_neg h4, h3, hdt]

/-- Witness for C9's amended claim at the concrete 20-byte file. -/
theorem C9_short_header_generic_error_witness :
    c9short.length < 1024 ∧
      (read_map c9short = .error (.nameError "dtype_mode") ∨
        read_map c9short = .error .indexError ∨
        read_map c9short = .error
          (.valueError "buffer size must be a multiple of element size")) :=
  ⟨by decide, C9_short_header_generic_error c9short (by decide)⟩

/-- C5: every dataset `CXIWriter.write` creates for a leaf carries the `axes`
attribute the claim states: `"experiment_identifier:value"` for a scalar leaf
and `"experiment_identifier:x"`, `":y:x"`, `":z:y:x"` for 1-D, 2-D and 3-D
array leaves (`claimedAxes`), stored as a one-element string attribute. -/
theorem C5_axes_tagging (cs : Nat) (v : Leaf) (d : Dataset)
    (h : mkLeafDataset cs v = some d) : d.axes = [claimedAxes v] := by
  cases v with
  | scalar s =>
    simp only [mkLeafDataset, Option.some.injEq] at h
    subst h
    rfl
  | array a =>
    simp only [mkLeafDataset] at h
    by_cases hok : py_create_ok a.dtype = true
    · rw [if_pos hok, Option.some.injEq] at h
      subst h
      simp only [claimedAxes]
      split_ifs <;> rfl
    · rw [if_neg hok] at h
      exact absurd h (by simp)

/-- Witness for C5 at a 2-D array leaf of shape (4, 5). -/
theorem C5_axes_tagging_witness :
    mkLeafDataset 2 c5leafWit = some c5dsWit ∧
      c5dsWit.axes = [claimedAxes c5leafWit] :=
  ⟨rfl, C5_axes_tagging 2 c5leafWit c5dsWit rfl⟩

/-- C10: if `CXIWriter.write` raises while writing the record's leaves, the
record index `self._i` is unchanged — it is incremented only after the whole
record is written and the file is flushed (lines 57-60). -/
theorem C10_index_unchanged_on_error (w : CXIWriter) (D : DEntries)
    (e : PyErr) (h : (w.write D).2.1 = some e) : (w.write D).1.i = w.i := by
  unfold CXIWriter.write at h ⊢
  rcases hw : write_without_iterate w.chunksize w.i "/" D w.root
    with ⟨g, oe, ws⟩
  cases oe with
  | none => rw [hw] at h; exact Option.noConfusion h
  | some e' => rfl

/-- Witness for C10: a writer at index 5 whose record collides a leaf into an
existing group; the write raises and the index stays 5. -/
theorem C10_index_unchanged_on_error_witness :
    (c10writer.write c10rec).2.1 = some (.notADataset "/x") ∧
      (c10writer.write c10rec).1.i = 5 :=
  ⟨rfl, C10_index_unchanged_on_error c10writer c10rec (.notADataset "/x") rfl⟩

/-! ### Helper lemmas on the group tree -/

theorem getChild_setChild_ne (g : HEntries) (k' k : String) (n : H5Node)
    (h : k' ≠ k) : getChildH (setChildH g k' n) k = getChildH g k := by
  cases g with
  | nil => simp [setChildH, getChildH, h]
  | cons k2 n2 rest =>
    by_cases h2 : k2 = k'
    · subst h2
      simp only [setChildH, if_pos rfl, getChildH, if_neg h]
    · simp only [setChildH, if_neg h2, getChildH,
        getChild_setChild_ne rest k' k n h]

theorem leafSteps_outside (cs i : Nat) (name k' k : String) (v : Leaf)
    (d : Dataset) (g : HEntries) (h : k' ≠ k) :
    getChildH (leafSteps cs i name k' v d g).1 k = getChildH g k := by
  cases hgrow : growIfNeeded cs i name v d with
  | error e =>
    simp only [leafSteps, hgrow]
    exact getChild_setChild_ne g k' k _ h
  | ok d1 =>
    cases hws : writeSlot i name v d1 with
    | error e =>
      simp only [leafSteps, hgrow, hws]
      exact getChild_setChild_ne g k' k _ h
    | ok d2 =>
      simp only [leafSteps, hgrow, hws]
      exact getChild_setChild_ne g k' k _ h

/-- A key the walk never touches keeps its binding: the single-value step. -/
theorem wwi_val_outside (cs i : Nat) (pfx k' : String) (v : DVal)
    (g : HEntries) (k : String) (h : k' ≠ k) :
    getChildH (write_without_iterate_val cs i pfx k' v g).1 k
      = getChildH g k := by
  cases v with
  | dict es =>
    rcases hg : getChildH g k' with _ | n
    · rcases hrec : write_without_iterate cs i (pfx ++ k' ++ "/") es .nil
        with ⟨sub2, e2, ws2⟩
      simp only [write_without_iterate_val, hg, create_group_raw, hrec]
      rw [getChild_setChild_ne _ k' k _ h, getChild_setChild_ne _ k' k _ h]
    · cases n with
      | group sub =>
        rcases hrec : write_without_iterate cs i (pfx ++ k' ++ "/") es sub
          with ⟨sub2, e2, ws2⟩
        simp only [write_without_iterate_val, hg, hrec]
        exact getChild_setChild_ne g k' k _ h
      | ds d => simp only [write_without_iterate_val, hg]
  | leaf lv =>
    rcases hg : getChildH g k' with _ | n
    · rcases hmk : mkLeafDataset cs lv with _ | d
      · simp only [write_without_iterate_val, hg, hmk]
      · simp only [write_without_iterate_val, hg, hmk]
        exact leafSteps_outside cs i (pfx ++ k') k' k lv d g h
    · cases n with
      | group sub => simp only [write_without_iterate_val, hg]
      | ds d =>
        simp only [write_without_iterate_val, hg]
        exact leafSteps_outside cs i (pfx ++ k') k' k lv d g h

/-- A key outside the record keeps its binding across a whole record walk. -/
theorem wwi_outside (cs i : Nat) (pfx : String) (D : DEntries) (g : HEntries)
    (k : String) (h : k ∉ keysD D) :
    getChildH (write_without_iterate cs i pfx D g).1 k = getChildH g k := by
  cases D with
  | nil => rfl
  | cons k' v rest =>
    have hk' : k' ≠ k := by
      intro he
      exact h (by simp [keysD, he])
    have hrest : k ∉ keysD rest := by
      intro he
      exact h (by simp [keysD, he])
    rcases hval : write_without_iterate_val cs i pfx k' v g with ⟨g1, oe, ws⟩
    have hv := wwi_val_outside cs i pfx k' v g k hk'
    rw [hval] at hv
    cases oe with
    | some e =>
      simp only [write_without_iterate, hval]
      exact hv
    | none =>
      rcases hr : write_without_iterate cs i pfx rest g1 with ⟨g2, oe2, ws2⟩
      simp only [write_without_iterate, hval, hr]
      have hih := wwi_outside cs i pfx rest g1 k hrest
      rw [hr] at hih
      rw [hih, hv]

/-- C6: a non-scalar leaf whose element-type creation fails is skipped: the
walk logs the skip warning, creates no dataset under that name, and the
remaining entries are written exactly as they would be without it, with no
raise. -/
theorem C6_bad_leaf_skipped (cs i : Nat) (pfx k : String) (a : NDArray)
    (rest : DEntries) (g g' : HEntries) (ws : List String)
    (hbad : py_create_ok a.dtype = false)
    (hfresh : getChildH g k = none)
    (hrest : write_without_iterate cs i pfx rest g = (g', none, ws))
    (hnotin : k ∉ keysD rest) :
    write_without_iterate cs i pfx (.cons k (.leaf (.array a)) rest) g
        = (g', none, skipWarning (pfx ++ k) :: ws)
      ∧ getChildH g' k = none := by
  have hmk : mkLeafDataset cs (.array a) = none := by
    simp [mkLeafDataset, hbad]
  constructor
  · simp only [write_without_iterate, write_without_iterate_val, hfresh, hmk,
      hrest, List.singleton_append]
  · have hpres := wwi_outside cs i pfx rest g k hnotin
    rw [hrest] at hpres
    rw [hpres]
    exact hfresh

/-- Witness for C6 at a concrete record `{"bad": object-array, "ok1": 5}`
written to a fresh container. -/
theorem C6_bad_leaf_skipped_witness :
    py_create_ok c6bad.dtype = false ∧
      getChildH HEntries.nil "bad" = none ∧
      write_without_iterate 2 0 "/" c6rest .nil = (c6after, none, []) ∧
      "bad" ∉ keysD c6rest ∧
      (write_without_iterate 2 0 "/"
          (.cons "bad" (.leaf (.array c6bad)) c6rest) .nil
          = (c6after, none, skipWarning "/bad" :: [])
        ∧ getChildH c6after "bad" = none) :=
  ⟨rfl, rfl, rfl, by decide,
    C6_bad_leaf_skipped 2 0 "/" "bad" c6bad c6rest .nil c6after [] rfl rfl rfl
      (by decide)⟩

/-! ### C7: the guarded group creation never raises "already exists" -/

theorem growIfNeeded_no_ge (cs i : Nat) (name : String) (v : Leaf)
    (d : Dataset) (e : PyErr) (h : growIfNeeded cs i name v d = .error e) :
    errIsGroupExists (some e) = false := by
  unfold growIfNeeded at h
  split at h
  · split at h
    · exact Except.noConfusion h
    · cases h
      rfl
  · exact Except.noConfusion h

theorem writeSlot_no_ge (i : Nat) (name : String) (v : Leaf) (d : Dataset)
    (e : PyErr) (h : writeSlot i name v d = .error e) :
    errIsGroupExists (some e) = false := by
  unfold writeSlot at h
  split at h
  · split at h
    · split at h
      · split at h
        · exact Except.noConfusion h
        · cases h; rfl
      · cases h; rfl
    · split at h
      · cases h; rfl
      · split at h
        · split at h
          · exact Except.noConfusion h
          · cases h; rfl
        · cases h; rfl
  · cases h; rfl

theorem leafSteps_no_ge (cs i : Nat) (name k : String) (v : Leaf)
    (d : Dataset) (g : HEntries) :
    errIsGroupExists (leafSteps cs i name k v d g).2.1 = false := by
  cases hgrow : growIfNeeded cs i name v d with
  | error e =>
    simp only [leafSteps, hgrow]
    exact growIfNeeded_no_ge cs i name v d e hgrow
  | ok d1 =>
    cases hws : writeSlot i name v d1 with
    | error e =>
      simp only [leafSteps, hgrow, hws]
      exact writeSlot_no_ge i name v d1 e hws
    | ok d2 => simp only [leafSteps, hgrow, hws]; rfl

mutual

theorem wwi_no_ge (cs i : Nat) (pfx : String) (D : DEntries) (g : HEntries) :
    errIsGroupExists (write_without_iterate cs i pfx D g).2.1 = false := by
  cases D with
  | nil => rfl
  | cons k v rest =>
    have hv := wwi_val_no_ge cs i pfx k v g
    rcases hval : write_without_iterate_val cs i pfx k v g with ⟨g1, oe, ws⟩
    rw [hval] at hv
    cases oe with
    | some e =>
      simp only [write_without_iterate, hval]
      exact hv
    | none =>
      have hr := wwi_no_ge cs i pfx rest g1
      rcases hrest : write_without_iterate cs i pfx rest g1 with ⟨g2, oe2, ws2⟩
      rw [hrest] at hr
      simp only [write_without_iterate, hval, hrest]
      exact hr

theorem wwi_val_no_ge (cs i : Nat) (pfx k : String) (v : DVal)
    (g : HEntries) :
    errIsGroupExists (write_without_iterate_val cs i pfx k v g).2.1
      = false := by
  cases v with
  | dict es =>
    rcases hg : getChildH g k with _ | n
    · have hr := wwi_no_ge cs i (pfx ++ k ++ "/") es .nil
      rcases hrec : write_without_iterate cs i (pfx ++ k ++ "/") es .nil
        with ⟨sub2, e2, ws2⟩
      rw [hrec] at hr
      simp only [write_without_iterate_val, hg, create_group_raw, hrec]
      exact hr
    · cases n with
      | group sub =>
        have hr := wwi_no_ge cs i (pfx ++ k ++ "/") es sub
        rcases hrec : write_without_iterate cs i (pfx ++ k ++ "/") es sub
          with ⟨sub2, e2, ws2⟩
        rw [hrec] at hr
        simp only [write_without_iterate_val, hg, hrec]
        exact hr
      | ds d => simp only [write_without_iterate_val, hg]; rfl
  | leaf lv =>
    rcases hg : getChildH g k with _ | n
    · rcases hmk : mkLeafDataset cs lv with _ | d
      · simp only [write_without_iterate_val, hg, hmk]; rfl
      · simp only [write_without_iterate_val, hg, hmk]
        exact leafSteps_no_ge cs i (pfx ++ k) k lv d g
    · cases n with
      | group sub => simp only [write_without_iterate_val, hg]; rfl
      | ds d =>
        simp only [write_without_iterate_val, hg]
        exact leafSteps_no_ge cs i (pfx ++ k) k lv d g

end

/-- C7: `CXIWriter.write` never raises on the group-creation path: every
`create_group` call is guarded by `if k not in self._f[group_prefix]`
(line 67), so a group named in a record is created at most once and reused on
every later write — in particular, writing the same nested record repeatedly
never produces an "already exists" error. -/
theorem C7_idempotent_group_creation (w : CXIWriter) (D : DEntries) :
    errIsGroupExists (w.write D).2.1 = false := by
  unfold CXIWriter.write
  have h := wwi_no_ge w.chunksize w.i "/" D w.root
  rcases hw : write_without_iterate w.chunksize w.i "/" D w.root
    with ⟨g, oe, ws⟩
  rw [hw] at h
  cases oe with
  | none => rfl
  | some e => exact h

/-! ### Helper lemmas for the capacity-growth invariant -/

theorem happend_nil (g : HEntries) : happend g .nil = g := by
  cases g with
  | nil => rfl
  | cons k n rest => simp only [happend, happend_nil rest]

theorem happend_cons_assoc (a : HEntries) (k : String) (n : H5Node)
    (b : HEntries) :
    happend (happend a (.cons k n .nil)) b = happend a (.cons k n b) := by
  cases a with
  | nil => rfl
  | cons k2 n2 rest => simp only [happend, happend_cons_assoc rest k n b]

theorem getChild_happend_left_none (a b : HEntries) (k : String)
    (h : getChildH a k = none) :
    getChildH (happend a b) k = getChildH b k := by
  cases a with
  | nil => rfl
  | cons k2 n2 rest =>
    by_cases h2 : k2 = k
    · simp [getChildH, h2] at h
    · simp only [getChildH, if_neg h2] at h
      simp only [happend, getChildH, if_neg h2]
      exact getChild_happend_left_none rest b k h

theorem getChild_happend_self (a : HEntries) (k : String) (n : H5Node)
    (r : HEntries) (h : getChildH a k = none) :
    getChildH (happend a (.cons k n r)) k = some n := by
  rw [getChild_happend_left_none a _ k h]
  simp [getChildH]

theorem getChild_happend_cons_ne (a : HEntries) (k : String) (n : H5Node)
    (kj : String) (ha : getChildH a kj = none) (hne : k ≠ kj) :
    getChildH (happend a (.cons k n .nil)) kj = none := by
  rw [getChild_happend_left_none a _ kj ha]
  simp [getChildH, hne]

theorem setChild_fresh (g : HEntries) (k : String) (n : H5Node)
    (h : getChildH g k = none) :
    setChildH g k n = happend g (.cons k n .nil) := by
  cases g with
  | nil => rfl
  | cons k2 n2 rest =>
    by_cases h2 : k2 = k
    · simp [getChildH, h2] at h
    · simp only [getChildH, if_neg h2] at h
      simp only [setChildH, if_neg h2, happend, setChild_fresh rest k n h]

theorem setChild_happend_mid (a : HEntries) (k : String) (n : H5Node)
    (r : HEntries) (n' : H5Node) (h : getChildH a k = none) :
    setChildH (happend a (.cons k n r)) k n' = happend a (.cons k n' r) := by
  cases a with
  | nil => simp [happend, setChildH]
  | cons k2 n2 rest =>
    by_cases h2 : k2 = k
    · simp [getChildH, h2] at h
    · simp only [getChildH, if_neg h2] at h
      simp only [happend, setChildH, if_neg h2,
        setChild_happend_mid rest k n r n' h]

theorem setChild_setChild (g : HEntries) (k : String) (n1 n2 : H5Node) :
    setChildH (setChildH g k n1) k n2 = setChildH g k n2 := by
  cases g with
  | nil => simp [setChildH]
  | cons k2 n0 rest =>
    by_cases h2 : k2 = k
    · simp [setChildH, h2]
    · simp only [setChildH, if_neg h2, setChild_setChild rest k n1 n2]

theorem listSet_length (l : List (Option Cell)) (i : Nat) (c : Cell) :
    (listSet l i c).length = l.length := by
  induction l generalizing i with
  | nil => rfl
  | cons x rest ih =>
    cases i with
    | zero => rfl
    | succ n => simp only [listSet, List.length_cons, ih n]

theorem shrinkSlots_length (i : Nat) (l : List (Option Cell)) :
    (shrinkSlots i l).length = i := by
  simp only [shrinkSlots, List.length_append, List.length_take,
    List.length_replicate]
  omega

/-! ### Schema-equality transfer lemmas -/

theorem skel_fields (a b : Leaf) (h : a.skel = b.skel) :
    leafIsScalar a = leafIsScalar b ∧ leafDataShape a = leafDataShape b ∧
      leafDtype a = leafDtype b ∧ leafCreateOk a = leafCreateOk b :=
  ⟨congrArg LeafSkel.isScalar h, congrArg LeafSkel.dataShape h,
    congrArg LeafSkel.finalDtype h, congrArg LeafSkel.createOk h⟩

theorem skel_keys (D1 D2 : DEntries) (h : sameSkelE D1 D2 = true) :
    keysD D1 = keysD D2 := by
  cases D1 with
  | nil =>
    cases D2 with
    | nil => rfl
    | cons k v r => simp [sameSkelE] at h
  | cons k1 v1 r1 =>
    cases D2 with
    | nil => simp [sameSkelE] at h
    | cons k2 v2 r2 =>
      simp only [sameSkelE, Bool.and_eq_true, decide_eq_true_eq] at h
      obtain ⟨⟨hk, _⟩, hr⟩ := h
      simp only [keysD, hk, skel_keys r1 r2 hr]

mutual

theorem skel_writable_v (v1 v2 : DVal) (h : sameSkelV v1 v2 = true) :
    writableV v1 = writableV v2 := by
  cases v1 with
  | leaf a =>
    cases v2 with
    | leaf b =>
      simp only [sameSkelV, decide_eq_true_eq] at h
      obtain ⟨h1, h2, _, h4⟩ := skel_fields a b h
      cases a with
      | scalar s =>
        cases b with
        | scalar t => rfl
        | array bb => simp [leafIsScalar] at h1
      | array aa =>
        cases b with
        | scalar t => simp [leafIsScalar] at h1
        | array bb =>
          simp only [leafDataShape] at h2
          simp only [leafCreateOk] at h4
          simp only [writableV, h2, h4]
    | dict es => simp [sameSkelV] at h
  | dict e1 =>
    cases v2 with
    | leaf b => simp [sameSkelV] at h
    | dict e2 =>
      simp only [sameSkelV] at h
      simp only [writableV, skel_writable_e e1 e2 h]

theorem skel_writable_e (D1 D2 : DEntries) (h : sameSkelE D1 D2 = true) :
    writableE D1 = writableE D2 := by
  cases D1 with
  | nil =>
    cases D2 with
    | nil => rfl
    | cons k v r => simp [sameSkelE] at h
  | cons k1 v1 r1 =>
    cases D2 with
    | nil => simp [sameSkelE] at h
    | cons k2 v2 r2 =>
      simp only [sameSkelE, Bool.and_eq_true, decide_eq_true_eq] at h
      obtain ⟨⟨_, hv⟩, hr⟩ := h
      simp only [writableE, skel_writable_v v1 v2 hv, skel_writable_e r1 r2 hr]

end

mutual

theorem skel_nodup_v (v1 v2 : DVal) (h : sameSkelV v1 v2 = true) :
    nodupV v1 = nodupV v2 := by
  cases v1 with
  | leaf a =>
    cases v2 with
    | leaf b => rfl
    | dict es => simp [sameSkelV] at h
  | dict e1 =>
    cases v2 with
    | leaf b => simp [sameSkelV] at h
    | dict e2 =>
      simp only [sameSkelV] at h
      simp only [nodupV, skel_nodup_e e1 e2 h]

theorem skel_nodup_e (D1 D2 : DEntries) (h : sameSkelE D1 D2 = true) :
    nodupE D1 = nodupE D2 := by
  cases D1 with
  | nil =>
    cases D2 with
    | nil => rfl
    | cons k v r => simp [sameSkelE] at h
  | cons k1 v1 r1 =>
    cases D2 with
    | nil => simp [sameSkelE] at h
    | cons k2 v2 r2 =>
      simp only [sameSkelE, Bool.and_eq_true, decide_eq_true_eq] at h
      obtain ⟨⟨hk, hv⟩, hr⟩ := h
      simp only [nodupE, hk, skel_keys r1 r2 hr, skel_nodup_v v1 v2 hv,
        skel_nodup_e r1 r2 hr]

end

mutual

theorem fits_transfer_v (c : Nat) (vA vB : DVal) (n : H5Node)
    (h : sameSkelV vA vB = true) (hf : fitsVal c vB n) : fitsVal c vA n := by
  cases vA with
  | leaf a =>
    cases vB with
    | leaf b =>
      simp only [sameSkelV, decide_eq_true_eq] at h
      obtain ⟨_, h2, h3, _⟩ := skel_fields a b h
      cases n with
      | ds d =>
        simp only [fitsVal] at hf ⊢
        exact ⟨hf.1, hf.2.1, h2 ▸ hf.2.2.1, h3 ▸ hf.2.2.2⟩
      | group g => exact absurd hf (by simp [fitsVal])
    | dict es => simp [sameSkelV] at h
  | dict eA =>
    cases vB with
    | leaf b => simp [sameSkelV] at h
    | dict eB =>
      simp only [sameSkelV] at h
      cases n with
      | ds d => exact absurd hf (by simp [fitsVal])
      | group g =>
        simp only [fitsVal] at hf ⊢
        exact fits_transfer_e c eA eB g h hf

theorem fits_transfer_e (c : Nat) (DA DB : DEntries) (g : HEntries)
    (h : sameSkelE DA DB = true) (hf : fitsEnt c DB g) : fitsEnt c DA g := by
  cases DA with
  | nil =>
    cases DB with
    | nil => exact hf
    | cons k v r => simp [sameSkelE] at h
  | cons kA vA rA =>
    cases DB with
    | nil => simp [sameSkelE] at h
    | cons kB vB rB =>
      simp only [sameSkelE, Bool.and_eq_true, decide_eq_true_eq] at h
      obtain ⟨⟨hk, hv⟩, hr⟩ := h
      cases g with
      | nil => exact absurd hf (by simp [fitsEnt])
      | cons k2 n r2 =>
        simp only [fitsEnt] at hf ⊢
        exact ⟨hk ▸ hf.1, fits_transfer_v c vA vB n hv hf.2.1,
          fits_transfer_e c rA rB r2 hr hf.2.2⟩

end

/-! ### Chunk arithmetic -/

theorem lt_chunk (cs i : Nat) (hcs : 0 < cs) : i < cs * (i / cs + 1) := by
  have h1 := Nat.div_add_mod i cs
  have h2 := Nat.mod_lt i hcs
  rw [Nat.mul_add, Nat.mul_one]
  linarith

theorem capstep (cs k : Nat) (hcs : 0 < cs) (hk : 1 ≤ k) :
    (if cs * ((k - 1) / cs + 1) ≤ k then cs * (k / cs + 1)
      else cs * ((k - 1) / cs + 1)) = cs * (k / cs + 1) := by
  split
  · rfl
  · next h =>
    have hs : k - 1 + 1 = k := Nat.succ_pred_eq_of_pos hk
    have h1 := Nat.div_add_mod (k - 1) cs
    have h2 := Nat.mod_lt (k - 1) hcs
    rw [Nat.mul_add, Nat.mul_one] at h
    push_neg at h
    have h3 : (k - 1) % cs + 1 < cs := by linarith
    have hk2 : ((k - 1) % cs + 1) + cs * ((k - 1) / cs) = k := by linarith
    have hdiv : k / cs = ((k - 1) % cs + 1 + cs * ((k - 1) / cs)) / cs := by
      rw [hk2]
    rw [Nat.add_mul_div_left _ _ hcs, Nat.div_eq_of_lt h3, Nat.zero_add]
      at hdiv
    rw [hdiv]

theorem chunk_min (cs x m : Nat) (hcs : 0 < cs) (h : x < cs * m) :
    cs * (x / cs + 1) ≤ cs * m := by
  have hlt : x / cs < m := by
    rw [Nat.div_lt_iff_lt_mul hcs, Nat.mul_comm]
    exact h
  exact Nat.mul_le_mul_left cs hlt

/-! ### Operation-level lemmas -/

theorem grow_noop (cs i : Nat) (name : String) (v : Leaf) (d : Dataset)
    (h : i < d.cap) : growIfNeeded cs i name v d = .ok d := by
  unfold growIfNeeded
  rw [if_neg (Nat.not_le.mpr h)]

theorem grow_grow (cs i : Nat) (name : String) (v : Leaf) (d : Dataset)
    (h : d.cap ≤ i) (hsh : leafDataShape v = d.tshape) :
    growIfNeeded cs i name v d
      = .ok { d with
              cap := cs * (i / cs + 1)
              slots := d.slots.take (cs * (i / cs + 1)) ++
                List.replicate (cs * (i / cs + 1) - d.slots.length) none } := by
  unfold growIfNeeded
  rw [if_pos h, if_pos hsh]

theorem writeSlot_scalar_ok (i : Nat) (name : String) (s : Scalar)
    (d : Dataset) (hi : i < d.cap) (ht : d.tshape = [])
    (hd : d.dtype = scalarFinalDtype s) :
    writeSlot i name (.scalar s) d
      = .ok { d with slots := listSet d.slots i (.scalar s) } := by
  unfold writeSlot
  rw [if_pos hi]
  simp [ht, hd]

theorem writeSlot_array_ok (i : Nat) (name : String) (a : NDArray)
    (d : Dataset) (hi : i < d.cap) (hne : a.shape ≠ [])
    (ht : d.tshape = a.shape) (hd : d.dtype = a.dtype) :
    writeSlot i name (.array a) d
      = .ok { d with slots := listSet d.slots i (.array a.flat) } := by
  unfold writeSlot
  rw [if_pos hi]
  simp [hne, ht, hd]

theorem leafSteps_ok (cs i : Nat) (name k : String) (v : Leaf)
    (d d1 d2 : Dataset) (g : HEntries)
    (hgrow : growIfNeeded cs i name v d = .ok d1)
    (hslot : writeSlot i name v d1 = .ok d2) :
    leafSteps cs i name k v d g = (setChildH g k (.ds d2), none, []) := by
  simp only [leafSteps, hgrow, hslot]

/-! ### First write: fresh keys materialize the record's schema -/

theorem mkLeafDataset_some (cs : Nat) (lv : Leaf)
    (hok : leafCreateOk lv = true) :
    ∃ d, mkLeafDataset cs lv = some d := by
  cases lv with
  | scalar s => exact ⟨_, rfl⟩
  | array a =>
    simp only [leafCreateOk] at hok
    exact ⟨_, by simp only [mkLeafDataset]; rw [if_pos hok]⟩

theorem mkLeafDataset_props (cs : Nat) (lv : Leaf) (d : Dataset)
    (h : mkLeafDataset cs lv = some d) :
    d.cap = cs ∧ d.tshape = leafDataShape lv ∧ d.dtype = leafDtype lv ∧
      d.slots = List.replicate cs none := by
  cases lv with
  | scalar s =>
    simp only [mkLeafDataset, Option.some.injEq] at h
    subst h
    exact ⟨rfl, rfl, rfl, rfl⟩
  | array a =>
    simp only [mkLeafDataset] at h
    by_cases hok : py_create_ok a.dtype = true
    · rw [if_pos hok, Option.some.injEq] at h
      subst h
      exact ⟨rfl, rfl, rfl, rfl⟩
    · rw [if_neg hok] at h
      exact absurd h (by simp)

mutual

theorem create_val (cs : Nat) (hcs : 0 < cs) (pfx k : String) (v : DVal)
    (g : HEntries) (hw : writableV v = true) (hnd : nodupV v = true)
    (hg : getChildH g k = none) :
    ∃ n ws,
      write_without_iterate_val cs 0 pfx k v g
        = (happend g (.cons k n .nil), none, ws) ∧ fitsVal cs v n := by
  cases v with
  | leaf lv =>
    have hok : leafCreateOk lv = true := by
      cases lv with
      | scalar s => rfl
      | array a =>
        simp only [writableV, Bool.and_eq_true] at hw
        simp only [leafCreateOk]
        exact hw.1
    obtain ⟨d, hmk⟩ := mkLeafDataset_some cs lv hok
    obtain ⟨hcap, hts, hdt, hsl⟩ := mkLeafDataset_props cs lv d hmk
    have hicap : (0 : Nat) < d.cap := by rw [hcap]; exact hcs
    obtain ⟨d2, hslot, hfits⟩ :
        ∃ d2, writeSlot 0 (pfx ++ k) lv d = .ok d2 ∧
          fitsVal cs (.leaf lv) (.ds d2) := by
      cases lv with
      | scalar s =>
        refine ⟨_, writeSlot_scalar_ok 0 (pfx ++ k) s d hicap hts hdt, ?_⟩
        refine ⟨hcap, ?_, hts, hdt⟩
        simp [listSet_length, hsl]
      | array a =>
        simp only [writableV, Bool.and_eq_true, Bool.not_eq_true',
          List.isEmpty_eq_false] at hw
        refine ⟨_, writeSlot_array_ok 0 (pfx ++ k) a d hicap hw.2 hts hdt, ?_⟩
        refine ⟨hcap, ?_, hts, hdt⟩
        simp [listSet_length, hsl]
    refine ⟨.ds d2, [], ?_, hfits⟩
    simp only [write_without_iterate_val, hg, hmk,
      leafSteps_ok cs 0 (pfx ++ k) k lv d d d2 g
        (grow_noop cs 0 (pfx ++ k) lv d hicap) hslot,
      setChild_fresh g k _ hg]
  | dict es =>
    simp only [writableV] at hw
    simp only [nodupV] at hnd
    obtain ⟨gsub, ws, hrec, hfit⟩ :=
      create_ent cs hcs (pfx ++ k ++ "/") es .nil hw hnd (fun _ _ => rfl)
    simp only [happend] at hrec
    refine ⟨.group gsub, ws, ?_, hfit⟩
    simp only [write_without_iterate_val, hg, create_group_raw, hrec,
      setChild_fresh g k _ hg, setChild_happend_mid g k _ _ _ hg]

theorem create_ent (cs : Nat) (hcs : 0 < cs) (pfx : String) (D : DEntries)
    (g : HEntries) (hw : writableE D = true) (hnd : nodupE D = true)
    (hf : ∀ k ∈ keysD D, getChildH g k = none) :
    ∃ gN ws,
      write_without_iterate cs 0 pfx D g = (happend g gN, none, ws) ∧
        fitsEnt cs D gN := by
  cases D with
  | nil => exact ⟨.nil, [], by rw [happend_nil]; rfl, trivial⟩
  | cons k v rest =>
    simp only [writableE, Bool.and_eq_true] at hw
    simp only [nodupE, Bool.and_eq_true, Bool.not_eq_true',
      decide_eq_false_iff_not] at hnd
    obtain ⟨hwv, hwr⟩ := hw
    obtain ⟨⟨hkr, hnv⟩, hnr⟩ := hnd
    obtain ⟨n, ws1, hval, hfv⟩ := create_val cs hcs pfx k v g hwv hnv
      (hf k (by simp [keysD]))
    have hfresh1 : ∀ kj ∈ keysD rest,
        getChildH (happend g (.cons k n .nil)) kj = none := by
      intro kj hkj
      refine getChild_happend_cons_ne g k n kj
        (hf kj (by simp [keysD, hkj])) ?_
      intro he
      exact hkr (by rw [he]; exact hkj)
    obtain ⟨gN2, ws2, hrest, hfr⟩ :=
      create_ent cs hcs pfx rest (happend g (.cons k n .nil)) hwr hnr hfresh1
    refine ⟨.cons k n gN2, ws1 ++ ws2, ?_, rfl, hfv, hfr⟩
    simp only [write_without_iterate, hval, hrest, happend_cons_assoc]

end

/-! ### Later writes: the tree already fits the schema and caps grow in
chunks -/

mutual

theorem step_val (cs i c c' : Nat) (hcs : 0 < cs)
    (hc' : c' = if c ≤ i then cs * (i / cs + 1) else c)
    (pfx k : String) (v0 v : DVal) (gdone grest : HEntries) (n : H5Node)
    (hsk : sameSkelV v0 v = true) (hw : writableV v0 = true)
    (hnd : nodupV v0 = true) (hfit : fitsVal c v0 n)
    (hdone : getChildH gdone k = none) :
    ∃ n' ws,
      write_without_iterate_val cs i pfx k v
          (happend gdone (.cons k n grest))
        = (happend gdone (.cons k n' grest), none, ws) ∧ fitsVal c' v0 n' := by
  cases v0 with
  | leaf lv0 =>
    cases v with
    | dict es => simp [sameSkelV] at hsk
    | leaf lv =>
      cases n with
      | group gs => exact absurd hfit (by simp [fitsVal])
      | ds d =>
        simp only [sameSkelV, decide_eq_true_eq] at hsk
        obtain ⟨hf1, hf2, hf3, hf4⟩ := skel_fields lv0 lv hsk
        simp only [fitsVal] at hfit
        obtain ⟨hcap, hlen, hts, hdt⟩ := hfit
        have hlook := getChild_happend_self gdone k (.ds d) grest hdone
        have hgrowth : ∃ d1, growIfNeeded cs i (pfx ++ k) lv d = .ok d1 ∧
            d1.cap = c' ∧ d1.slots.length = c' ∧ d1.tshape = d.tshape ∧
            d1.dtype = d.dtype := by
          by_cases hci : c ≤ i
          · refine ⟨_, grow_grow cs i (pfx ++ k) lv d (by rw [hcap]; exact hci)
              (by rw [← hf2, hts]), ?_, ?_, rfl, rfl⟩
            · rw [hc', if_pos hci]
            · rw [hc', if_pos hci]
              have hle : c ≤ cs * (i / cs + 1) :=
                le_trans hci (le_of_lt (lt_chunk cs i hcs))
              simp only [List.length_append, List.length_take,
                List.length_replicate, hlen]
              rw [Nat.min_eq_right hle, Nat.add_sub_cancel' hle]
          · refine ⟨d, grow_noop cs i (pfx ++ k) lv d (by rw [hcap]; omega),
              hcap.trans ?_, ?_, rfl, rfl⟩
            · rw [hc', if_neg hci]
            · rw [hc', if_neg hci]
              exact hlen
        obtain ⟨d1, hgrow, hcap1, hlen1, hts1, hdt1⟩ := hgrowth
        have hic' : i < d1.cap := by
          rw [hcap1, hc']
          by_cases hci : c ≤ i
          · rw [if_pos hci]
            exact lt_chunk cs i hcs
          · rw [if_neg hci]
            omega
        have hslot : ∃ d2, writeSlot i (pfx ++ k) lv d1 = .ok d2 ∧
            fitsVal c' (.leaf lv0) (.ds d2) := by
          cases lv0 with
          | scalar s0 =>
            cases lv with
            | array a => simp [leafIsScalar] at hf1
            | scalar s =>
              refine ⟨_, writeSlot_scalar_ok i (pfx ++ k) s d1 hic'
                (by rw [hts1, hts]; rfl)
                (by rw [hdt1, hdt]; exact hf3), ?_⟩
              refine ⟨hcap1, ?_, by rw [hts1]; exact hts,
                by rw [hdt1]; exact hdt⟩
              simp [listSet_length, hlen1]
          | array a0 =>
            cases lv with
            | scalar s => simp [leafIsScalar] at hf1
            | array a =>
              simp only [writableV, Bool.and_eq_true, Bool.not_eq_true',
                List.isEmpty_eq_false] at hw
              have hsh : a.shape = a0.shape := by
                have h5 := hf2
                simp only [leafDataShape] at h5
                exact h5.symm
              refine ⟨_, writeSlot_array_ok i (pfx ++ k) a d1 hic'
                (by rw [hsh]; exact hw.2)
                (by rw [hts1, hts]; simp only [leafDataShape]; exact hsh.symm)
                (by rw [hdt1, hdt]; exact hf3), ?_⟩
              refine ⟨hcap1, ?_, by rw [hts1]; exact hts,
                by rw [hdt1]; exact hdt⟩
              simp [listSet_length, hlen1]
        obtain ⟨d2, hws, hfits2⟩ := hslot
        refine ⟨.ds d2, [], ?_, hfits2⟩
        simp only [write_without_iterate_val, hlook,
          leafSteps_ok cs i (pfx ++ k) k lv d d1 d2 _ hgrow hws,
          setChild_happend_mid gdone k _ _ _ hdone]
  | dict es0 =>
    cases v with
    | leaf lv => simp [sameSkelV] at hsk
    | dict es =>
      cases n with
      | ds d => exact absurd hfit (by simp [fitsVal])
      | group gsub =>
        simp only [sameSkelV] at hsk
        simp only [writableV] at hw
        simp only [nodupV] at hnd
        simp only [fitsVal] at hfit
        have hlook := getChild_happend_self gdone k (.group gsub) grest hdone
        obtain ⟨gsub2, ws, hrec, hfit2⟩ :=
          step_ent cs i c c' hcs hc' (pfx ++ k ++ "/") es0 es .nil gsub
            hsk hw hnd hfit (fun _ _ => rfl)
        simp only [happend] at hrec
        refine ⟨.group gsub2, ws, ?_, hfit2⟩
        simp only [write_without_iterate_val, hlook, hrec,
          setChild_happend_mid gdone k _ _ _ hdone]

theorem step_ent (cs i c c' : Nat) (hcs : 0 < cs)
    (hc' : c' = if c ≤ i then cs * (i / cs + 1) else c)
    (pfx : String) (D0 D : DEntries) (gdone gtodo : HEntries)
    (hsk : sameSkelE D0 D = true) (hw : writableE D0 = true)
    (hnd : nodupE D0 = true) (hfit : fitsEnt c D0 gtodo)
    (hdone : ∀ k ∈ keysD D0, getChildH gdone k = none) :
    ∃ gtodo' ws,
      write_without_iterate cs i pfx D (happend gdone gtodo)
        = (happend gdone gtodo', none, ws) ∧ fitsEnt c' D0 gtodo' := by
  cases D0 with
  | nil =>
    cases D with
    | cons k v r => simp [sameSkelE] at hsk
    | nil =>
      cases gtodo with
      | cons k n r => exact absurd hfit (by simp [fitsEnt])
      | nil => exact ⟨.nil, [], rfl, trivial⟩
  | cons k0 v0 r0 =>
    cases D with
    | nil => simp [sameSkelE] at hsk
    | cons k v r =>
      simp only [sameSkelE, Bool.and_eq_true, decide_eq_true_eq] at hsk
      obtain ⟨⟨hkk, hvv⟩, hrr⟩ := hsk
      subst hkk
      cases gtodo with
      | nil => exact absurd hfit (by simp [fitsEnt])
      | cons k2 n r2 =>
        simp only [fitsEnt] at hfit
        obtain ⟨hk2, hfv, hfr⟩ := hfit
        subst hk2
        simp only [writableE, Bool.and_eq_true] at hw
        simp only [nodupE, Bool.and_eq_true, Bool.not_eq_true',
          decide_eq_false_iff_not] at hnd
        obtain ⟨hwv, hwr⟩ := hw
        obtain ⟨⟨hkr, hnv⟩, hnr⟩ := hnd
        obtain ⟨n', ws1, hval, hfv'⟩ :=
          step_val cs i c c' hcs hc' pfx k2 v0 v gdone r2 n hvv hwv hnv hfv
            (hdone k2 (by simp [keysD]))
        have hdone2 : ∀ kj ∈ keysD r0,
            getChildH (happend gdone (.cons k2 n' .nil)) kj = none := by
          intro kj hkj
          refine getChild_happend_cons_ne gdone k2 n' kj
            (hdone kj (by simp [keysD, hkj])) ?_
          intro he
          exact hkr (by rw [he]; exact hkj)
        obtain ⟨r2', ws2, hrest, hfr'⟩ :=
          step_ent cs i c c' hcs hc' pfx r0 r
            (happend gdone (.cons k2 n' .nil)) r2 hrr hwr hnr hfr hdone2
        simp only [happend_cons_assoc] at hrest
        refine ⟨.cons k2 n' r2', ws1 ++ ws2, ?_, rfl, hfv', hfr'⟩
        simp only [write_without_iterate, hval, hrest]

end

/-- Iterating `write` over schema-equal records keeps every dataset at the
uniform chunk-grown capacity. -/
theorem many_steps (cs : Nat) (hcs : 0 < cs) (D0 : DEntries)
    (hw : writableE D0 = true) (hnd : nodupE D0 = true) :
    ∀ (Ds : List DEntries) (w : CXIWriter) (k : Nat),
      w.chunksize = cs → w.i = k → 1 ≤ k →
      (∀ D ∈ Ds, sameSkelE D0 D = true) →
      fitsEnt (cs * ((k - 1) / cs + 1)) D0 w.root →
      (writeMany w Ds).2 = none ∧
        (writeMany w Ds).1.i = k + Ds.length ∧
        fitsEnt (cs * ((k + Ds.length - 1) / cs + 1)) D0
          (writeMany w Ds).1.root := by
  intro Ds
  induction Ds with
  | nil =>
    intro w k hcsw hik hk1 hsk hfit
    refine ⟨rfl, ?_, ?_⟩
    · simp [writeMany, hik]
    · simpa [writeMany] using hfit
  | cons D rest ih =>
    intro w k hcsw hik hk1 hsk hfit
    have hc'eq := capstep cs k hcs hk1
    obtain ⟨gtodo', ws, hwrite, hfit'⟩ :=
      step_ent cs k (cs * ((k - 1) / cs + 1)) (cs * (k / cs + 1)) hcs
        hc'eq.symm "/" D0 D .nil w.root (hsk D (by simp)) hw hnd hfit
        (fun _ _ => rfl)
    simp only [happend] at hwrite
    have hwD : w.write D
        = ({ w with root := gtodo', i := w.i + 1 }, none, ws) := by
      unfold CXIWriter.write
      rw [hcsw, hik, hwrite]
    have hwm : writeMany w (D :: rest)
        = writeMany { w with root := gtodo', i := w.i + 1 } rest := by
      simp only [writeMany, hwD]
    rw [hwm]
    have hmain := ih { w with root := gtodo', i := w.i + 1 } (k + 1)
      hcsw (by simp [hik]) (by omega)
      (fun D2 h2 => hsk D2 (by simp [h2]))
      (by simpa using hfit')
    obtain ⟨ha, hb, hc⟩ := hmain
    refine ⟨ha, ?_, ?_⟩
    · rw [hb]
      simp only [List.length_cons]
      omega
    · have hlen2 : k + 1 + rest.length - 1 = k + (D :: rest).length - 1 := by
        simp only [List.length_cons]
        omega
      rw [← hlen2]
      exact hc

/-! ### Every dataset of a fitting tree has the uniform capacity -/

mutual

theorem fits_caps_v (c : Nat) (v : DVal) (n : H5Node) (h : fitsVal c v n) :
    ∀ d ∈ datasetsN n, d.cap = c ∧ d.slots.length = c := by
  cases v with
  | leaf lv =>
    cases n with
    | ds d0 =>
      intro d hd
      simp only [datasetsN, List.mem_singleton] at hd
      subst hd
      simp only [fitsVal] at h
      exact ⟨h.1, h.2.1⟩
    | group g => exact absurd h (by simp [fitsVal])
  | dict es =>
    cases n with
    | ds d0 => exact absurd h (by simp [fitsVal])
    | group g =>
      simp only [fitsVal] at h
      simp only [datasetsN]
      exact fits_caps_e c es g h

theorem fits_caps_e (c : Nat) (D : DEntries) (g : HEntries)
    (h : fitsEnt c D g) :
    ∀ d ∈ datasetsE g, d.cap = c ∧ d.slots.length = c := by
  cases D with
  | nil =>
    cases g with
    | nil =>
      intro d hd
      simp [datasetsE] at hd
    | cons k n r => exact absurd h (by simp [fitsEnt])
  | cons k v r =>
    cases g with
    | nil => exact absurd h (by simp [fitsEnt])
    | cons k2 n r2 =>
      simp only [fitsEnt] at h
      intro d hd
      simp only [datasetsE, List.mem_append] at hd
      cases hd with
      | inl h1 => exact fits_caps_v c v n h.2.1 d h1
      | inr h2 => exact fits_caps_e c r r2 h.2.2 d h2

end

/-! ### `_shrink_stacks` sets every dataset's leading axis to the record count
-/

mutual

theorem shrink_caps_n (i : Nat) (n : H5Node) :
    ∀ d ∈ datasetsN (shrink_stacks_node i n),
      d.cap = i ∧ d.slots.length = i := by
  cases n with
  | ds d0 =>
    intro d hd
    simp only [shrink_stacks_node, datasetsN, List.mem_singleton] at hd
    subst hd
    exact ⟨rfl, shrinkSlots_length i d0.slots⟩
  | group g =>
    intro d hd
    simp only [shrink_stacks_node, datasetsN] at hd
    exact shrink_caps_e i g d hd

theorem shrink_caps_e (i : Nat) (g : HEntries) :
    ∀ d ∈ datasetsE (shrink_stacks i g), d.cap = i ∧ d.slots.length = i := by
  cases g with
  | nil =>
    intro d hd
    simp [shrink_stacks, datasetsE] at hd
  | cons k n r =>
    intro d hd
    simp only [shrink_stacks, datasetsE, List.mem_append] at hd
    cases hd with
    | inl h1 => exact shrink_caps_n i n d h1
    | inr h2 => exact shrink_caps_e i r d h2

end

/-- C1: for chunk size C > 0 and N ≥ 1 schema-equal records written from
record 0 on, every leaf dataset's physical leading capacity immediately before
`close()` equals `C * ((N-1)/C + 1)` — the smallest multiple of C strictly
greater than N−1 — and after `close()` every leaf dataset's leading (logical)
length is exactly N. -/
theorem C1_capacity_growth (cs N : Nat) (D0 : DEntries) (Ds : List DEntries)
    (hcs : 0 < cs) (hN : 1 ≤ N) (hlen : Ds.length = N)
    (hw : writableE D0 = true) (hnd : nodupE D0 = true)
    (hsk : ∀ D ∈ Ds, sameSkelE D0 D = true) :
    (writeMany (CXIWriter.new cs) Ds).2 = none ∧
      (∀ d ∈ datasetsE (writeMany (CXIWriter.new cs) Ds).1.root,
        d.cap = cs * ((N - 1) / cs + 1) ∧
          d.slots.length = cs * ((N - 1) / cs + 1)) ∧
      (N - 1 < cs * ((N - 1) / cs + 1) ∧
        ∀ m, N - 1 < cs * m → cs * ((N - 1) / cs + 1) ≤ cs * m) ∧
      (∀ d ∈ datasetsE ((writeMany (CXIWriter.new cs) Ds).1.close).root,
        d.cap = N ∧ d.slots.length = N) := by
  cases Ds with
  | nil =>
    simp only [List.length_nil] at hlen
    omega
  | cons Dh Dt =>
    have hskh : sameSkelE D0 Dh = true := hsk Dh (by simp)
    have hwDh : writableE Dh = true := by
      rw [← skel_writable_e D0 Dh hskh]
      exact hw
    have hndDh : nodupE Dh = true := by
      rw [← skel_nodup_e D0 Dh hskh]
      exact hnd
    obtain ⟨gN, ws1, hw1, hfit1⟩ :=
      create_ent cs hcs "/" Dh .nil hwDh hndDh (fun _ _ => rfl)
    simp only [happend] at hw1
    have hfit1' : fitsEnt cs D0 gN := fits_transfer_e cs D0 Dh gN hskh hfit1
    have hwD : (CXIWriter.new cs).write Dh
        = ({ root := gN, i := 1, chunksize := cs }, none, ws1) := by
      unfold CXIWriter.write CXIWriter.new
      rw [hw1]
    have hwm : writeMany (CXIWriter.new cs) (Dh :: Dt)
        = writeMany { root := gN, i := 1, chunksize := cs } Dt := by
      simp only [writeMany, hwD]
    have hfitc : fitsEnt (cs * ((1 - 1) / cs + 1)) D0 gN := by
      simpa [Nat.zero_div] using hfit1'
    obtain ⟨ha, hb, hc⟩ := many_steps cs hcs D0 hw hnd Dt
      { root := gN, i := 1, chunksize := cs } 1 rfl rfl (le_refl 1)
      (fun D2 h2 => hsk D2 (by simp [h2])) hfitc
    have hN' : 1 + Dt.length = N := by
      simp only [List.length_cons] at hlen
      omega
    rw [hN'] at hb hc
    refine ⟨?_, ?_, ?_, ?_⟩
    · rw [hwm]
      exact ha
    · rw [hwm]
      exact fits_caps_e _ D0 _ hc
    · exact ⟨lt_chunk cs (N - 1) hcs, fun m hm => chunk_min cs (N - 1) m hcs hm⟩
    · rw [hwm]
      intro d hd
      simp only [CXIWriter.close] at hd
      rw [hb] at hd
      exact shrink_caps_e N _ d hd

/-- Witness for C1: chunk size 2, three writes of the one-leaf record
`c1rec`; capacity before close is 4 and the closed length is 3. -/
theorem C1_capacity_growth_witness :
    ((0 : Nat) < 2 ∧ (1 : Nat) ≤ 3 ∧
      ([c1rec, c1rec, c1rec] : List DEntries).length = 3 ∧
      writableE c1rec = true ∧ nodupE c1rec = true ∧
      (∀ D ∈ ([c1rec, c1rec, c1rec] : List DEntries),
        sameSkelE c1rec D = true)) ∧
    ((writeMany (CXIWriter.new 2) [c1rec, c1rec, c1rec]).2 = none ∧
      (∀ d ∈ datasetsE
          (writeMany (CXIWriter.new 2) [c1rec, c1rec, c1rec]).1.root,
        d.cap = 2 * ((3 - 1) / 2 + 1) ∧
          d.slots.length = 2 * ((3 - 1) / 2 + 1)) ∧
      (3 - 1 < 2 * ((3 - 1) / 2 + 1) ∧
        ∀ m, 3 - 1 < 2 * m → 2 * ((3 - 1) / 2 + 1) ≤ 2 * m) ∧
      (∀ d ∈ datasetsE
          ((writeMany (CXIWriter.new 2) [c1rec, c1rec, c1rec]).1.close).root,
        d.cap = 3 ∧ d.slots.length = 3)) :=
  ⟨⟨by decide, by decide, by decide, by decide, by decide, by decide⟩,
    C1_capacity_growth 2 3 c1rec [c1rec, c1rec, c1rec] (by decide) (by decide)
      (by decide) (by decide) (by decide) (by decide)⟩

end Cxi
